import Mathlib

/-!
# Verification of the `CpaRepositoryImpl` entity repository

A shallow embedding of `src/repository/CpaRepositoryImpl.h` (a generic CRUD
repository over a blob store) together with the blob-store semantics of
`src/ArduinoFileManager.h` (ESP32 `Preferences`: reading an absent key yields
the empty string, `Update` is `Create`, `Append` is read + concatenate +
write).

The blob store is modelled as a total function from blob names to contents,
with the empty string standing for "absent" — exactly the observable
behaviour of `Preferences.getString` with default `""`.  Entity types are
modelled by an `EntityOps` record carrying the static table/key names and
the serialization functions; the ID type parameter is instantiated at `Int`
(the code converts IDs with `std::to_string` / `std::stoll`, i.e. through
signed decimal notation, which `decRepr` / `stollChars` model below).
-/

namespace Cpa

/-! ## Decimal rendering (`std::to_string`) and parsing (`std::stoll`) -/

/-- The decimal digit character for `n % 10`-style values. -/
def digitChar (n : Nat) : Char :=
  match n with
  | 0 => '0' | 1 => '1' | 2 => '2' | 3 => '3' | 4 => '4'
  | 5 => '5' | 6 => '6' | 7 => '7' | 8 => '8' | _ => '9'

/-- Decimal digit list of a natural number, most significant first. -/
def natDigits (n : Nat) : List Char :=
  if _h : n < 10 then [digitChar n]
  else natDigits (n / 10) ++ [digitChar (n % 10)]
decreasing_by exact Nat.div_lt_self (by omega) (by omega)

/-- Model of `std::to_string` on a (signed) integer id. -/
def decRepr (i : Int) : String :=
  if i < 0 then String.mk ('-' :: natDigits i.natAbs) else String.mk (natDigits i.natAbs)

/-- Decimal digit characters `'0'`–`'9'`. -/
def isDigitCh (c : Char) : Bool := 48 ≤ c.toNat && c.toNat ≤ 57

/-- The characters `std::isspace` accepts in the default locale. -/
def isSpaceCh (c : Char) : Bool :=
  c = ' ' || c = '\t' || c = '\n' || c = '\x0b' || c = '\x0c' || c = '\r'

/-- Numeric value of a digit character. -/
def digVal (c : Char) : Nat := c.toNat - 48

/-- Value of a digit string read left to right. -/
def digitsVal (l : List Char) : Nat := l.foldl (fun a c => 10 * a + digVal c) 0

/-- Model of `std::stoll`: skip leading whitespace, read an optional sign,
then the longest run of decimal digits. -/
def stollChars (l : List Char) : Int :=
  let l1 := l.dropWhile isSpaceCh
  if l1.head? = some '-' then -(digitsVal ((l1.drop 1).takeWhile isDigitCh) : Int)
  else if l1.head? = some '+' then (digitsVal ((l1.drop 1).takeWhile isDigitCh) : Int)
  else (digitsVal (l1.takeWhile isDigitCh) : Int)

/-! ## The blob store (`ArduinoFileManager` over ESP32 `Preferences`) -/

/-- A blob store state: content under each name, `""` meaning absent. -/
def Store : Type := String → String

/-- The store with no blobs. -/
def emptyStore : Store := fun _ => ""

/-- `Read`: `getString` with default `""`. -/
def fmRead (s : Store) (name : String) : String := s name

/-- `Create` (also `Update`): `putString`, a full overwrite. -/
def fmPut (s : Store) (name content : String) : Store :=
  fun m => if m = name then content else s m

/-- `Delete`: `Preferences.remove`; a later read yields the default `""`. -/
def fmDelete (s : Store) (name : String) : Store :=
  fun m => if m = name then "" else s m

/-- `Append`: read the existing content, concatenate, write back. -/
def fmAppend (s : Store) (name content : String) : Store :=
  fmPut s name (fmRead s name ++ content)

/-- One `IFileManager` call issued by the repository. -/
inductive FileOp : Type
  | create (name content : String)
  | read (name : String)
  | update (name content : String)
  | delete (name : String)
  | append (name content : String)
deriving DecidableEq, Repr

/-- Whether a file-manager call writes (everything except `Read`). -/
def FileOp.isWrite : FileOp → Bool
  | .read _ => false
  | _ => true

/-- Number of write calls in a trace. -/
def countWrites (l : List FileOp) : Nat := (l.filter FileOp.isWrite).length

/-! ## Entity contract -/

/-- The static and per-instance operations an entity type supplies
(`GetTableName`, `GetPrimaryKeyName`, `GetPrimaryKey`, `Serialize`,
`Deserialize`). -/
structure EntityOps (α : Type) : Type where
  tableName : String
  primaryKeyName : String
  getPrimaryKey : α → Option Int
  serialize : α → String
  deserialize : String → α

/-! ## Repository helpers (`CpaRepositoryImpl`) -/

/-- `DATABASE_PATH` from the source. -/
def databasePath : String := "/Users/nkurude/db"

/-- `GetIdsFilePath`: the index blob name for a table. -/
def GetIdsFilePath {α : Type} (E : EntityOps α) : String :=
  databasePath ++ "/" ++ E.tableName ++ "_IDs.txt"

/-- `GetFilePath`: the entity blob name for an id. -/
def GetFilePath {α : Type} (E : EntityOps α) (id : Int) : String :=
  databasePath ++ "/" ++ E.tableName ++ "_" ++ E.primaryKeyName ++ "_" ++ decRepr id ++ ".txt"

/-- Is a character a line terminator (the `ReadAllIds` check `c == '\n' || c == '\r'`)? -/
def isTermCh (c : Char) : Bool := c = '\n' || c = '\r'

/-- The character loop of `ReadAllIds`: accumulate a token until a line
terminator, convert non-empty tokens with `std::stoll`, and convert a
non-empty trailing token at end of input. -/
def scanIds (l : List Char) (currentId : List Char) : List Int :=
  match l with
  | [] => if currentId.isEmpty then [] else [stollChars currentId]
  | c :: rest =>
    if isTermCh c then
      if currentId.isEmpty then scanIds rest []
      else stollChars currentId :: scanIds rest []
    else scanIds rest (currentId ++ [c])

/-- `ReadAllIds` applied to given index-blob contents: empty contents parse
to no ids, otherwise the contents are scanned character by character. -/
def parseIds (contents : String) : List Int :=
  if contents.isEmpty then [] else scanIds contents.data []

/-- `ReadAllIds`: read the index blob and parse it. -/
def ReadAllIds {α : Type} (E : EntityOps α) (s : Store) : List Int :=
  parseIds (fmRead s (GetIdsFilePath E))

/-- The contents written by `WriteAllIds`: every id followed by `"\n"`,
including the last. -/
def formatIds (ids : List Int) : String :=
  ids.foldl (fun contents i => contents ++ decRepr i ++ "\n") ""

/-- `WriteAllIds`: overwrite the index blob with the formatted id list. -/
def WriteAllIds {α : Type} (E : EntityOps α) (ids : List Int) (s : Store) : Store :=
  fmPut s (GetIdsFilePath E) (formatIds ids)

/-- `IdExistsInFile`: linear scan of the parsed index for the id. -/
def IdExistsInFile {α : Type} (E : EntityOps α) (id : Int) (s : Store) : Bool :=
  (ReadAllIds E s).any (fun existingId => existingId == id)

/-! ## Repository operations

Mutating operations return the result, the new store, and the trace of
`IFileManager` calls they made, in order. -/

/-- `Save`: no-op without a primary key; otherwise `Create` the entity blob,
then append the id to the index blob unless it is already listed. -/
def Save {α : Type} (E : EntityOps α) (entity : α) (s : Store) : α × Store × List FileOp :=
  match E.getPrimaryKey entity with
  | none => (entity, s, [])
  | some id =>
    let filePath := GetFilePath E id
    let contents := E.serialize entity
    let s1 := fmPut s filePath contents
    if IdExistsInFile E id s1 then
      (entity, s1, [.create filePath contents, .read (GetIdsFilePath E)])
    else
      let idStr := decRepr id ++ "\n"
      (entity, fmAppend s1 (GetIdsFilePath E) idStr,
        [.create filePath contents, .read (GetIdsFilePath E),
         .append (GetIdsFilePath E) idStr])

/-- `FindById`: read the entity blob; empty content means not found. -/
def FindById {α : Type} (E : EntityOps α) (id : Int) (s : Store) : Option α :=
  let contents := fmRead s (GetFilePath E id)
  if contents.isEmpty then none else some (E.deserialize contents)

/-- `FindAll`: parse the index, read each id's blob in order, and
deserialize the non-empty ones. -/
def FindAll {α : Type} (E : EntityOps α) (s : Store) : List α :=
  (ReadAllIds E s).foldl
    (fun entities id =>
      let contents := fmRead s (GetFilePath E id)
      if contents.isEmpty then entities else entities ++ [E.deserialize contents])
    []

/-- The string `Update` appends to the index for a not-yet-indexed id, given
the current index contents: an extra leading terminator is inserted when the
contents are non-empty and do not already end in one. -/
def updateAppendString (currentContents : String) (id : Int) : String :=
  if currentContents.isEmpty then decRepr id ++ "\n"
  else
    if currentContents.length > 0 ∧
        currentContents.data.getLastD ' ' ≠ '\n' ∧
        currentContents.data.getLastD ' ' ≠ '\r' then
      "\n" ++ decRepr id ++ "\n"
    else decRepr id ++ "\n"

/-- `Update`: no-op without a primary key; otherwise `Update` the entity
blob, and if the id is not indexed, append it with newline handling. -/
def Update {α : Type} (E : EntityOps α) (entity : α) (s : Store) : α × Store × List FileOp :=
  match E.getPrimaryKey entity with
  | none => (entity, s, [])
  | some entityId =>
    let filePath := GetFilePath E entityId
    let contents := E.serialize entity
    let s1 := fmPut s filePath contents
    if IdExistsInFile E entityId s1 then
      (entity, s1, [.update filePath contents, .read (GetIdsFilePath E)])
    else
      let currentContents := fmRead s1 (GetIdsFilePath E)
      let idStr := updateAppendString currentContents entityId
      (entity, fmAppend s1 (GetIdsFilePath E) idStr,
        [.update filePath contents, .read (GetIdsFilePath E),
         .read (GetIdsFilePath E), .append (GetIdsFilePath E) idStr])

/-- `DeleteById`: delete the entity blob, then rewrite the whole index with
the id filtered out. -/
def DeleteById {α : Type} (E : EntityOps α) (id : Int) (s : Store) : Store × List FileOp :=
  let filePath := GetFilePath E id
  let s1 := fmDelete s filePath
  let ids := ReadAllIds E s1
  let updatedIds := ids.filter (fun existingId => existingId != id)
  (WriteAllIds E updatedIds s1,
    [.delete filePath, .read (GetIdsFilePath E),
     .create (GetIdsFilePath E) (formatIds updatedIds)])

/-- `Delete`: resolve the id from the entity; delegate to `DeleteById` when
present, no-op otherwise. -/
def Delete {α : Type} (E : EntityOps α) (entity : α) (s : Store) : Store × List FileOp :=
  match E.getPrimaryKey entity with
  | none => (s, [])
  | some id => DeleteById E id s

/-- `ExistsById`: the entity blob read yields non-empty content. -/
def ExistsById {α : Type} (E : EntityOps α) (id : Int) (s : Store) : Bool :=
  !(fmRead s (GetFilePath E id)).isEmpty

/-! ## Spec-side formulations and a concrete entity type -/

/-- Spec-side tokenizer: split a character buffer at every line terminator,
keeping the (possibly empty) segments between them. -/
def splitTerm : List Char → List (List Char)
  | [] => [[]]
  | c :: rest =>
    let ss := splitTerm rest
    if isTermCh c then [] :: ss
    else (c :: ss.headI) :: ss.tail

/-- A concrete entity type for exercising the repository: the primary key
paired with the payload, serialized as the payload itself. -/
def demoOps : EntityOps (Option Int × String) where
  tableName := "User"
  primaryKeyName := "id"
  getPrimaryKey := Prod.fst
  serialize := Prod.snd
  deserialize := fun contents => (none, contents)

/-! ## Lemmas about decimal rendering and parsing -/

theorem digitChar_isDigit (n : Nat) : isDigitCh (digitChar n) = true := by
  unfold digitChar
  split <;> decide

theorem digVal_digitChar (d : Nat) (h : d < 10) : digVal (digitChar d) = d := by
  interval_cases d <;> decide

theorem isDigitCh_not_space {c : Char} (h : isDigitCh c = true) : isSpaceCh c = false := by
  have hb : 48 ≤ c.toNat ∧ c.toNat ≤ 57 := by simpa [isDigitCh] using h
  simp only [isSpaceCh, Bool.or_eq_false_iff, decide_eq_false_iff_not]
  refine ⟨⟨⟨⟨⟨?_, ?_⟩, ?_⟩, ?_⟩, ?_⟩, ?_⟩ <;>
    · rintro rfl; revert hb; decide

theorem isDigitCh_not_term {c : Char} (h : isDigitCh c = true) : isTermCh c = false := by
  have hb : 48 ≤ c.toNat ∧ c.toNat ≤ 57 := by simpa [isDigitCh] using h
  simp only [isTermCh, Bool.or_eq_false_iff, decide_eq_false_iff_not]
  constructor <;> · rintro rfl; revert hb; decide

theorem isDigitCh_ne_minus {c : Char} (h : isDigitCh c = true) : c ≠ '-' := by
  rintro rfl; revert h; decide

theorem isDigitCh_ne_plus {c : Char} (h : isDigitCh c = true) : c ≠ '+' := by
  rintro rfl; revert h; decide

theorem natDigits_ne_nil (n : Nat) : natDigits n ≠ [] := by
  rw [natDigits]
  split
  · simp
  · simp

theorem natDigits_all_digit (n : Nat) : ∀ c ∈ natDigits n, isDigitCh c = true := by
  induction n using Nat.strong_induction_on with
  | _ n ih =>
    rw [natDigits]
    split
    · intro c hc
      rcases List.mem_singleton.mp hc with rfl
      exact digitChar_isDigit n
    · intro c hc
      rcases List.mem_append.mp hc with h1 | h2
      · exact ih (n / 10) (Nat.div_lt_self (by omega) (by omega)) c h1
      · rcases List.mem_singleton.mp h2 with rfl
        exact digitChar_isDigit (n % 10)

theorem foldl_natDigits (n : Nat) :
    ∀ a : Nat, List.foldl (fun x c => 10 * x + digVal c) a (natDigits n) =
      a * 10 ^ (natDigits n).length + n := by
  induction n using Nat.strong_induction_on with
  | _ n ih =>
    intro a
    rw [natDigits]
    split
    · rename_i h
      simp [List.foldl, digVal_digitChar n h]
      ring
    · rename_i h
      rw [List.foldl_append, List.length_append]
      rw [ih (n / 10) (Nat.div_lt_self (by omega) (by omega))]
      simp only [List.foldl, List.length_singleton]
      rw [digVal_digitChar (n % 10) (Nat.mod_lt n (by omega))]
      have hmod : 10 * (n / 10) + n % 10 = n := Nat.div_add_mod n 10
      rw [pow_succ]
      generalize (10 : Nat) ^ (natDigits (n / 10)).length = p
      have : a * (p * 10) = (a * p) * 10 := by ring
      rw [this]
      generalize a * p = q
      omega

theorem digitsVal_natDigits (n : Nat) : digitsVal (natDigits n) = n := by
  unfold digitsVal
  rw [foldl_natDigits]
  simp

theorem stollChars_decRepr (i : Int) : stollChars (decRepr i).data = i := by
  by_cases hneg : i < 0
  · have hdata : (decRepr i).data = '-' :: natDigits i.natAbs := by
      simp [decRepr, hneg]
    have hdrop : List.dropWhile isSpaceCh ('-' :: natDigits i.natAbs) =
        '-' :: natDigits i.natAbs := rfl
    rw [hdata]
    simp only [stollChars, hdrop, List.head?_cons, List.drop_one, List.tail_cons,
      List.takeWhile_eq_self_iff.mpr (natDigits_all_digit i.natAbs),
      digitsVal_natDigits]
    simp only [Option.some.injEq, if_true]
    omega
  · have hdata : (decRepr i).data = natDigits i.natAbs := by
      simp [decRepr, hneg]
    obtain ⟨c, t, hct⟩ : ∃ c t, natDigits i.natAbs = c :: t := by
      rcases h : natDigits i.natAbs with _ | ⟨c, t⟩
      · exact absurd h (natDigits_ne_nil _)
      · exact ⟨c, t, rfl⟩
    have hcdig : isDigitCh c = true := natDigits_all_digit i.natAbs c (by rw [hct]; simp)
    have hdrop : List.dropWhile isSpaceCh (c :: t) = c :: t := by
      simp [List.dropWhile, isDigitCh_not_space hcdig]
    have htake : List.takeWhile isDigitCh (c :: t) = c :: t := by
      rw [← hct]
      exact List.takeWhile_eq_self_iff.mpr (natDigits_all_digit i.natAbs)
    have hval : digitsVal (c :: t) = i.natAbs := by
      rw [← hct]
      exact digitsVal_natDigits i.natAbs
    rw [hdata, hct]
    simp only [stollChars, hdrop, List.head?_cons, htake, hval, Option.some.injEq]
    rw [if_neg (isDigitCh_ne_minus hcdig), if_neg (isDigitCh_ne_plus hcdig)]
    omega

theorem decRepr_data_ne_nil (i : Int) : (decRepr i).data ≠ [] := by
  by_cases hneg : i < 0
  · simp [decRepr, hneg]
  · simp [decRepr, hneg, natDigits_ne_nil]

theorem decRepr_no_term (i : Int) : ∀ c ∈ (decRepr i).data, isTermCh c = false := by
  by_cases hneg : i < 0
  · simp only [decRepr, if_pos hneg]
    intro c hc
    rcases List.mem_cons.mp hc with rfl | h
    · decide
    · exact isDigitCh_not_term (natDigits_all_digit i.natAbs c h)
  · simp only [decRepr, if_neg hneg]
    intro c hc
    exact isDigitCh_not_term (natDigits_all_digit i.natAbs c hc)

theorem decRepr_injective {i j : Int} (h : decRepr i = decRepr j) : i = j := by
  have := stollChars_decRepr i
  rw [h, stollChars_decRepr] at this
  omega

/-! ## Lemmas about the index scanner -/

theorem data_append (s t : String) : (s ++ t).data = s.data ++ t.data := rfl

theorem parseIds_eq_scan (c : String) : parseIds c = scanIds c.data [] := by
  unfold parseIds
  split
  · rename_i h
    rw [String.isEmpty_iff] at h
    rw [h]
    rfl
  · rfl

theorem scan_term_step (c : Char) (rest cur : List Char) (hc : isTermCh c = true) :
    scanIds (c :: rest) cur =
      if cur.isEmpty then scanIds rest [] else stollChars cur :: scanIds rest [] := by
  simp [scanIds, hc]

theorem scan_nonterm_step (c : Char) (rest cur : List Char) (hc : isTermCh c = false) :
    scanIds (c :: rest) cur = scanIds rest (cur ++ [c]) := by
  simp [scanIds, hc]

theorem isEmpty_false_of_ne_nil {l : List Char} (h : l ≠ []) : l.isEmpty = false := by
  cases l with
  | nil => exact absurd rfl h
  | cons a t => rfl

theorem scan_accum (tok : List Char) : ∀ (rest cur : List Char),
    (∀ c ∈ tok, isTermCh c = false) →
    scanIds (tok ++ rest) cur = scanIds rest (cur ++ tok) := by
  induction tok with
  | nil => intro rest cur _; simp
  | cons c tok' ih =>
    intro rest cur h
    have hc : isTermCh c = false := h c (List.mem_cons_self c tok')
    rw [List.cons_append, scan_nonterm_step c _ cur hc]
    rw [ih rest (cur ++ [c]) (fun x hx => h x (List.mem_cons_of_mem c hx))]
    rw [List.append_assoc]
    rfl

theorem scan_append_of_term (l : List Char) : ∀ (c : Char) (m cur : List Char),
    isTermCh c = true →
    scanIds ((l ++ [c]) ++ m) cur = scanIds (l ++ [c]) cur ++ scanIds m [] := by
  induction l with
  | nil =>
    intro c m cur hc
    rw [List.nil_append, List.singleton_append, scan_term_step c m cur hc,
      scan_term_step c [] cur hc]
    by_cases hcur : cur.isEmpty <;> simp [hcur, scanIds]
  | cons a l' ih =>
    intro c m cur hc
    by_cases ha : isTermCh a
    · rw [List.cons_append, List.cons_append, scan_term_step a _ cur ha,
        scan_term_step a _ cur ha]
      by_cases hcur : cur.isEmpty
      · simp only [hcur, if_true]
        exact ih c m [] hc
      · simp only [hcur, Bool.false_eq_true, if_false, List.cons_append]
        rw [ih c m [] hc]
    · have ha' : isTermCh a = false := by simpa using ha
      rw [List.cons_append, List.cons_append, scan_nonterm_step a _ cur ha',
        scan_nonterm_step a _ cur ha']
      exact ih c m (cur ++ [a]) hc

theorem scan_trailing_term (l : List Char) : ∀ (cur : List Char) (c : Char),
    isTermCh c = true → scanIds (l ++ [c]) cur = scanIds l cur := by
  induction l with
  | nil =>
    intro cur c hc
    rw [List.nil_append, scan_term_step c [] cur hc]
    by_cases hcur : cur.isEmpty <;> simp [hcur, scanIds]
  | cons a l' ih =>
    intro cur c hc
    by_cases ha : isTermCh a
    · rw [List.cons_append, scan_term_step a _ cur ha, scan_term_step a l' cur ha]
      by_cases hcur : cur.isEmpty <;> simp [hcur, ih [] c hc]
    · have ha' : isTermCh a = false := by simpa using ha
      rw [List.cons_append, scan_nonterm_step a _ cur ha', scan_nonterm_step a l' cur ha']
      exact ih (cur ++ [a]) c hc

theorem scan_single_token (tok : List Char) (h1 : tok ≠ [])
    (h2 : ∀ x ∈ tok, isTermCh x = false) :
    scanIds tok [] = [stollChars tok] := by
  have h := scan_accum tok [] [] h2
  simp only [List.append_nil, List.nil_append] at h
  rw [h]
  simp [scanIds, isEmpty_false_of_ne_nil h1]

theorem formatIds_go (l : List Int) : ∀ a : String,
    List.foldl (fun contents i => contents ++ decRepr i ++ "\n") a l = a ++ formatIds l := by
  induction l with
  | nil =>
    intro a
    apply String.ext
    simp [formatIds, data_append]
  | cons i t ih =>
    intro a
    have hstep : formatIds (i :: t) = ("" ++ decRepr i ++ "\n") ++ formatIds t := by
      unfold formatIds
      rw [List.foldl_cons, ih ("" ++ decRepr i ++ "\n")]
      rfl
    simp only [List.foldl_cons, ih (a ++ decRepr i ++ "\n"), hstep]
    apply String.ext
    simp [data_append, List.append_assoc]

theorem formatIds_cons (i : Int) (t : List Int) :
    formatIds (i :: t) = decRepr i ++ "\n" ++ formatIds t := by
  have h : formatIds (i :: t) =
      List.foldl (fun contents j => contents ++ decRepr j ++ "\n")
        ("" ++ decRepr i ++ "\n") t := rfl
  rw [h, formatIds_go]
  apply String.ext
  have hnil : ("" : String).data = [] := rfl
  simp [data_append, hnil, List.append_assoc]

theorem parseIds_formatIds (l : List Int) : parseIds (formatIds l) = l := by
  induction l with
  | nil => rfl
  | cons i t ih =>
    rw [formatIds_cons, parseIds_eq_scan]
    have hdata : (decRepr i ++ "\n" ++ formatIds t).data =
        (decRepr i).data ++ ('\n' :: (formatIds t).data) := by
      have hn : ("\n" : String).data = ['\n'] := rfl
      simp [data_append, hn, List.append_assoc]
    rw [hdata, scan_accum _ _ [] (decRepr_no_term i), List.nil_append]
    rw [scan_term_step '\n' _ _ rfl]
    rw [isEmpty_false_of_ne_nil (decRepr_data_ne_nil i)]
    simp only [Bool.false_eq_true, if_false]
    rw [stollChars_decRepr, ← parseIds_eq_scan, ih]

/-! ## Lemmas about the store and blob names -/

theorem fmRead_fmPut (s : Store) (n c m : String) :
    fmRead (fmPut s n c) m = if m = n then c else fmRead s m := rfl

theorem fmRead_fmDelete (s : Store) (n m : String) :
    fmRead (fmDelete s n) m = if m = n then "" else fmRead s m := rfl

theorem fmRead_emptyStore (n : String) : fmRead emptyStore n = "" := rfl

theorem getFilePath_data {α : Type} (E : EntityOps α) (i : Int) :
    (GetFilePath E i).data =
      databasePath.data ++ '/' :: (E.tableName.data ++ '_' ::
        (E.primaryKeyName.data ++ '_' :: ((decRepr i).data ++ ['.', 't', 'x', 't']))) := by
  have hslash : ("/" : String).data = ['/'] := rfl
  have hund : ("_" : String).data = ['_'] := rfl
  have htxt : ((".txt" : String)).data = ['.', 't', 'x', 't'] := rfl
  simp [GetFilePath, data_append, hslash, hund, htxt, List.append_assoc]

theorem getIdsFilePath_data {α : Type} (E : EntityOps α) :
    (GetIdsFilePath E).data =
      databasePath.data ++ '/' :: (E.tableName.data ++ '_' ::
        ['I', 'D', 's', '.', 't', 'x', 't']) := by
  have hslash : ("/" : String).data = ['/'] := rfl
  have hids : (("_IDs.txt" : String)).data = ['_', 'I', 'D', 's', '.', 't', 'x', 't'] := rfl
  simp [GetIdsFilePath, data_append, hslash, hids, List.append_assoc]

theorem filePath_ne_idsPath {α : Type} (E : EntityOps α) (i : Int) :
    GetFilePath E i ≠ GetIdsFilePath E := by
  intro h
  have hd := congrArg String.data h
  rw [getFilePath_data, getIdsFilePath_data] at hd
  have h1 := List.append_cancel_left hd
  injection h1 with _ h2
  have h3 := List.append_cancel_left h2
  injection h3 with _ h4
  have hm : '_' ∈ E.primaryKeyName.data ++ '_' :: ((decRepr i).data ++ ['.', 't', 'x', 't']) :=
    List.mem_append_right _ (List.mem_cons_self _ _)
  rw [h4] at hm
  exact absurd hm (by decide)

theorem filePath_inj {α : Type} (E : EntityOps α) {i j : Int}
    (h : GetFilePath E i = GetFilePath E j) : i = j := by
  have hd := congrArg String.data h
  rw [getFilePath_data, getFilePath_data] at hd
  have h1 := List.append_cancel_left hd
  injection h1 with _ h2
  have h3 := List.append_cancel_left h2
  injection h3 with _ h4
  have h5 := List.append_cancel_left h4
  injection h5 with _ h6
  have h7 := List.append_cancel_right h6
  have hi := stollChars_decRepr i
  rw [h7, stollChars_decRepr] at hi
  omega

/-! ## Further general helpers -/

theorem str_empty_append (s : String) : "" ++ s = s := by
  apply String.ext
  have hnil : ("" : String).data = [] := rfl
  simp [data_append, hnil]

theorem data_ne_nil_of_ne_empty {s : String} (h : s ≠ "") : s.data ≠ [] := by
  intro hd
  exact h (String.ext (by rw [hd]))

theorem scan_decRepr_newline (i : Int) (rest : List Char) :
    scanIds ((decRepr i).data ++ '\n' :: rest) [] = i :: scanIds rest [] := by
  rw [scan_accum _ _ [] (decRepr_no_term i), List.nil_append,
    scan_term_step '\n' rest _ rfl, isEmpty_false_of_ne_nil (decRepr_data_ne_nil i)]
  simp only [Bool.false_eq_true, if_false, stollChars_decRepr]

theorem parse_single (i : Int) : parseIds (decRepr i ++ "\n") = [i] := by
  rw [parseIds_eq_scan]
  have hdata : (decRepr i ++ "\n").data = (decRepr i).data ++ '\n' :: [] := rfl
  rw [hdata, scan_decRepr_newline]
  rfl

theorem join_go (l : List String) : ∀ a : String,
    List.foldl (fun r s => r ++ s) a l = a ++ String.join l := by
  induction l with
  | nil =>
    intro a
    apply String.ext
    have hnil : ("" : String).data = [] := rfl
    simp [String.join, data_append, hnil]
  | cons s t ih =>
    intro a
    have hjoin : String.join (s :: t) = ("" ++ s) ++ String.join t := by
      have h0 : String.join (s :: t) =
          List.foldl (fun r x => r ++ x) ("" ++ s) t := rfl
      rw [h0, ih ("" ++ s)]
    have h1 : List.foldl (fun r x => r ++ x) a (s :: t) =
        List.foldl (fun r x => r ++ x) (a ++ s) t := rfl
    rw [h1, ih (a ++ s), hjoin]
    apply String.ext
    have hnil : ("" : String).data = [] := rfl
    simp [data_append, hnil, List.append_assoc]

theorem join_cons (s : String) (t : List String) :
    String.join (s :: t) = s ++ String.join t := by
  have h0 : String.join (s :: t) =
      List.foldl (fun r x => r ++ x) ("" ++ s) t := rfl
  rw [h0, join_go, str_empty_append]

theorem formatIds_eq_join (l : List Int) :
    formatIds l = String.join (l.map (fun x => decRepr x ++ "\n")) := by
  induction l with
  | nil => rfl
  | cons i t ih =>
    rw [formatIds_cons, List.map_cons, join_cons, ih]

theorem findAll_go {α : Type} (E : EntityOps α) (s : Store) (ids : List Int) :
    ∀ acc : List α,
      ids.foldl
        (fun entities id =>
          let contents := fmRead s (GetFilePath E id)
          if contents.isEmpty then entities else entities ++ [E.deserialize contents])
        acc =
      acc ++ (ids.filter (fun i => !(fmRead s (GetFilePath E i)).isEmpty)).map
        (fun i => E.deserialize (fmRead s (GetFilePath E i))) := by
  induction ids with
  | nil => intro acc; simp
  | cons i t ih =>
    intro acc
    rw [List.foldl_cons, List.filter_cons]
    by_cases h : (fmRead s (GetFilePath E i)).isEmpty
    · simp only [h, if_true, Bool.not_true, Bool.false_eq_true, if_false]
      exact ih acc
    · have h' : (fmRead s (GetFilePath E i)).isEmpty = false := by
        simpa using h
      simp only [h', Bool.false_eq_true, if_false, Bool.not_false, if_true, List.map_cons]
      rw [ih (acc ++ [E.deserialize (fmRead s (GetFilePath E i))])]
      simp [List.append_assoc]

theorem splitTerm_ne_nil (l : List Char) : splitTerm l ≠ [] := by
  cases l with
  | nil => simp [splitTerm]
  | cons c rest =>
    simp only [splitTerm]
    split <;> simp

theorem splitTerm_nonterm (l : List Char) (h : ∀ c ∈ l, isTermCh c = false) :
    splitTerm l = [l] := by
  induction l with
  | nil => rfl
  | cons c t ih =>
    have hc : isTermCh c = false := h c (List.mem_cons_self c t)
    have ht := ih (fun x hx => h x (List.mem_cons_of_mem c hx))
    simp [splitTerm, hc, ht]

theorem splitTerm_append_term (cur : List Char) (c : Char) (rest : List Char)
    (hcur : ∀ x ∈ cur, isTermCh x = false) (hc : isTermCh c = true) :
    splitTerm (cur ++ c :: rest) = cur :: splitTerm rest := by
  induction cur with
  | nil => simp [splitTerm, hc]
  | cons a cur' ih =>
    have ha : isTermCh a = false := hcur a (List.mem_cons_self a cur')
    have ht := ih (fun x hx => hcur x (List.mem_cons_of_mem a hx))
    simp [splitTerm, ha, ht]

theorem scan_eq_split (l : List Char) : ∀ cur : List Char,
    (∀ c ∈ cur, isTermCh c = false) →
    scanIds l cur =
      ((splitTerm (cur ++ l)).filter (fun t => !t.isEmpty)).map stollChars := by
  induction l with
  | nil =>
    intro cur hcur
    rw [List.append_nil, splitTerm_nonterm cur hcur]
    by_cases h : cur.isEmpty
    · have : cur = [] := by simpa using h
      subst this
      rfl
    · have h' : cur.isEmpty = false := by simpa using h
      simp [scanIds, h']
  | cons c rest ih =>
    intro cur hcur
    by_cases hc : isTermCh c
    · rw [scan_term_step c rest cur hc, splitTerm_append_term cur c rest hcur hc]
      by_cases h : cur.isEmpty
      · have hnil : cur = [] := by simpa using h
        subst hnil
        simp only [if_true, List.filter_cons]
        have := ih [] (by intro x hx; exact absurd hx (List.not_mem_nil x))
        simp only [List.nil_append] at this
        simp [this]
      · have h' : cur.isEmpty = false := by simpa using h
        simp only [h', Bool.false_eq_true, if_false, List.filter_cons, Bool.not_false,
          if_true, List.map_cons]
        have := ih [] (by intro x hx; exact absurd hx (List.not_mem_nil x))
        simp only [List.nil_append] at this
        simp [this, h']
    · have hc' : isTermCh c = false := by simpa using hc
      rw [scan_nonterm_step c rest cur hc']
      have hcur' : ∀ x ∈ cur ++ [c], isTermCh x = false := by
        intro x hx
        rcases List.mem_append.mp hx with h1 | h2
        · exact hcur x h1
        · rcases List.mem_singleton.mp h2 with rfl
          exact hc'
      rw [ih (cur ++ [c]) hcur', List.append_assoc]
      rfl

/-! ## Claim theorems -/

/-- C3: Save, Update, and Delete on an entity whose primary key is absent
issue zero Blob Store write calls, leave the store unchanged, and
Save/Update return the input entity unchanged. -/
theorem claim_c3_no_key_no_op {α : Type} (E : EntityOps α) (entity : α) (s : Store)
    (h : E.getPrimaryKey entity = none) :
    Save E entity s = (entity, s, []) ∧
      Update E entity s = (entity, s, []) ∧
      Delete E entity s = (s, []) ∧
      countWrites (Save E entity s).2.2 = 0 ∧
      countWrites (Update E entity s).2.2 = 0 ∧
      countWrites (Delete E entity s).2 = 0 := by
  have hs : Save E entity s = (entity, s, []) := by
    unfold Save
    rw [h]
  have hu : Update E entity s = (entity, s, []) := by
    unfold Update
    rw [h]
  have hd : Delete E entity s = (s, []) := by
    unfold Delete
    rw [h]
  refine ⟨hs, hu, hd, ?_, ?_, ?_⟩ <;> simp [hs, hu, hd, countWrites]

/-- C3 witness: a concrete entity with no primary key. -/
theorem claim_c3_witness :
    demoOps.getPrimaryKey (none, "x") = none ∧
      Save demoOps (none, "x") emptyStore = ((none, "x"), emptyStore, []) :=
  ⟨rfl, (claim_c3_no_key_no_op demoOps (none, "x") emptyStore rfl).1⟩

/-- C4: FindAll equals parsing the index blob into its ordered ID sequence,
reading each ID's entity blob in that order, dropping IDs with empty blob
content, and deserializing the rest — so it preserves index order. -/
theorem claim_c4_findAll_spec {α : Type} (E : EntityOps α) (s : Store) :
    FindAll E s =
      ((parseIds (fmRead s (GetIdsFilePath E))).filter
          (fun i => !(fmRead s (GetFilePath E i)).isEmpty)).map
        (fun i => E.deserialize (fmRead s (GetFilePath E i))) := by
  unfold FindAll ReadAllIds
  rw [findAll_go, List.nil_append]

/-- C5: the index parser is equivalent to splitting the buffer at `\n`/`\r`
characters, converting each non-empty segment (including a non-empty
trailing token with no terminator) to an integer ID in order; empty index
content yields the empty ID sequence. -/
theorem claim_c5_index_parsing (contents : String) :
    parseIds contents =
      ((splitTerm contents.data).filter (fun t => !t.isEmpty)).map stollChars ∧
      parseIds "" = [] := by
  constructor
  · rw [parseIds_eq_scan,
      scan_eq_split contents.data [] (by intro x hx; exact absurd hx (List.not_mem_nil x)),
      List.nil_append]
  · rfl

/-- C9: ExistsById is true exactly when the entity blob read yields
non-empty content, and overwriting the index blob never changes it. -/
theorem claim_c9_existsById {α : Type} (E : EntityOps α) (i : Int) (s : Store) :
    (ExistsById E i s = true ↔ fmRead s (GetFilePath E i) ≠ "") ∧
      ∀ c : String, ExistsById E i (fmPut s (GetIdsFilePath E) c) = ExistsById E i s := by
  constructor
  · unfold ExistsById
    simp only [Bool.not_eq_true', ← Bool.not_eq_true]
    exact not_congr (String.isEmpty_iff _)
  · intro c
    unfold ExistsById
    rw [fmRead_fmPut, if_neg (filePath_ne_idsPath E i)]

/-- C10: an empty accumulated token is never converted to an ID —
inserting a consecutive line terminator contributes no entry — and a
CRLF-terminated index parses to exactly one ID per non-blank line. -/
theorem claim_c10_empty_tokens_skipped :
    (∀ a b : String, parseIds (a ++ "\n" ++ "\n" ++ b) = parseIds (a ++ "\n" ++ b)) ∧
      ∀ ids : List Int,
        parseIds (String.join (ids.map (fun i => decRepr i ++ "\r\n"))) = ids := by
  constructor
  · intro a b
    rw [parseIds_eq_scan, parseIds_eq_scan]
    have h1 : (a ++ "\n" ++ "\n" ++ b).data = (a.data ++ ['\n']) ++ ('\n' :: b.data) := by
      have hn : ("\n" : String).data = ['\n'] := rfl
      simp [data_append, hn, List.append_assoc]
    have h3 : (a ++ "\n" ++ b).data = (a.data ++ ['\n']) ++ b.data := by
      have hn : ("\n" : String).data = ['\n'] := rfl
      simp [data_append, hn, List.append_assoc]
    rw [h1, h3, scan_append_of_term a.data '\n' ('\n' :: b.data) [] rfl,
      scan_append_of_term a.data '\n' b.data [] rfl]
    have h2 : scanIds ('\n' :: b.data) [] = scanIds b.data [] := rfl
    rw [h2]
  · intro ids
    induction ids with
    | nil => rfl
    | cons i t ih =>
      rw [List.map_cons, join_cons, parseIds_eq_scan]
      have hdata : (decRepr i ++ "\r\n" ++ String.join (t.map (fun j => decRepr j ++ "\r\n"))).data =
          (decRepr i).data ++
            '\r' :: '\n' :: (String.join (t.map (fun j => decRepr j ++ "\r\n"))).data := by
        have hrn : ("\r\n" : String).data = ['\r', '\n'] := rfl
        simp [data_append, hrn, List.append_assoc]
      rw [hdata, scan_accum _ _ [] (decRepr_no_term i), List.nil_append]
      rw [scan_term_step '\r' _ _ rfl, isEmpty_false_of_ne_nil (decRepr_data_ne_nil i)]
      simp only [Bool.false_eq_true, if_false, stollChars_decRepr]
      have h2 : scanIds ('\n' :: (String.join (t.map (fun j => decRepr j ++ "\r\n"))).data) [] =
          scanIds (String.join (t.map (fun j => decRepr j ++ "\r\n"))).data [] := rfl
      rw [h2, ← parseIds_eq_scan, ih]

/-- C8 counterexample: the blob names are not bare `<table>_<pk>_<id>` /
`<table>_IDs` strings — the code prefixes the database directory and
appends a `.txt` extension. -/
theorem claim_c8_counterexample :
    GetFilePath demoOps 1 ≠ "User_id_1" ∧ GetIdsFilePath demoOps ≠ "User_IDs" := by
  have hn : natDigits 1 = ['1'] := by
    rw [natDigits]
    norm_num
    rfl
  have hlt : ¬((1 : Int) < 0) := by norm_num
  have hd1 : decRepr 1 = "1" := by
    simp only [decRepr, hlt, if_false]
    rw [show (1 : Int).natAbs = 1 from rfl, hn]
  have hfp : GetFilePath demoOps 1 = "/Users/nkurude/db/User_id_1.txt" := by
    show databasePath ++ "/" ++ demoOps.tableName ++ "_" ++ demoOps.primaryKeyName ++ "_" ++
        decRepr 1 ++ ".txt" = _
    rw [hd1]
    rfl
  have hip : GetIdsFilePath demoOps = "/Users/nkurude/db/User_IDs.txt" := rfl
  constructor
  · rw [hfp]
    decide
  · rw [hip]
    decide

/-- C8 (amended): the blob name of an entity record is exactly
`/Users/nkurude/db/<table>_<pk>_<id>.txt` and the index blob name is
exactly `/Users/nkurude/db/<table>_IDs.txt`. -/
theorem claim_c8_blob_names {α : Type} (E : EntityOps α) (i : Int) :
    GetFilePath E i =
        "/Users/nkurude/db/" ++ E.tableName ++ "_" ++ E.primaryKeyName ++ "_" ++
          decRepr i ++ ".txt" ∧
      GetIdsFilePath E = "/Users/nkurude/db/" ++ E.tableName ++ "_IDs.txt" := by
  constructor
  · show databasePath ++ "/" ++ E.tableName ++ "_" ++ E.primaryKeyName ++ "_" ++
        decRepr i ++ ".txt" = _
    rw [show databasePath ++ "/" = "/Users/nkurude/db/" from rfl]
  · show databasePath ++ "/" ++ E.tableName ++ "_IDs.txt" = _
    rw [show databasePath ++ "/" = "/Users/nkurude/db/" from rfl]

/-- C7: DeleteById deletes the entity blob and rewrites the index blob as
the previously parsed ID sequence with the id filtered out, each remaining
ID on its own `\n`-terminated line, the last included. -/
theorem claim_c7_deleteById_rewrite {α : Type} (E : EntityOps α) (i : Int) (s : Store) :
    fmRead (DeleteById E i s).1 (GetFilePath E i) = "" ∧
      fmRead (DeleteById E i s).1 (GetIdsFilePath E) =
        String.join (((parseIds (fmRead s (GetIdsFilePath E))).filter
            (fun x => decide (x ≠ i))).map (fun x => decRepr x ++ "\n")) := by
  have hread : fmRead (fmDelete s (GetFilePath E i)) (GetIdsFilePath E) =
      fmRead s (GetIdsFilePath E) := by
    rw [fmRead_fmDelete, if_neg (Ne.symm (filePath_ne_idsPath E i))]
  have hfilter : ∀ l : List Int,
      l.filter (fun x => x != i) = l.filter (fun x => decide (x ≠ i)) := by
    intro l
    apply List.filter_congr
    intro x _
    rw [Bool.eq_iff_iff]
    simp [bne_iff_ne]
  constructor
  · unfold DeleteById WriteAllIds
    dsimp only
    rw [fmRead_fmPut, if_neg (filePath_ne_idsPath E i), fmRead_fmDelete, if_pos rfl]
  · unfold DeleteById WriteAllIds ReadAllIds
    dsimp only
    rw [fmRead_fmPut, if_pos rfl, hread, hfilter, formatIds_eq_join]

/-- C6: the index-append string built by Update for a not-yet-indexed id is
`<id>\n` on an empty index, `\n<id>\n` when the index does not end in a
line terminator, and `<id>\n` otherwise; consequently appending it extends
the parsed ID sequence by exactly that id, preserving all previous IDs. -/
theorem claim_c6_update_newline_safety (cur : String) (i : Int) :
    (updateAppendString cur i =
        if cur = "" then decRepr i ++ "\n"
        else if cur.data.getLast? = some '\n' ∨ cur.data.getLast? = some '\r' then
          decRepr i ++ "\n"
        else "\n" ++ decRepr i ++ "\n") ∧
      parseIds (cur ++ updateAppendString cur i) = parseIds cur ++ [i] := by
  by_cases hcur : cur = ""
  · subst hcur
    constructor
    · rfl
    · have happ : updateAppendString "" i = decRepr i ++ "\n" := rfl
      rw [happ, str_empty_append, parse_single]
      rfl
  · have hb : cur.isEmpty = false := by
      rcases h : cur.isEmpty
      · rfl
      · exact absurd ((String.isEmpty_iff cur).mp h) hcur
    have hd : cur.data ≠ [] := data_ne_nil_of_ne_empty hcur
    obtain ⟨y, hy⟩ : ∃ y, cur.data.getLast? = some y := by
      rcases h : cur.data.getLast? with _ | y
      · exact absurd (List.getLast?_eq_none_iff.mp h) hd
      · exact ⟨y, rfl⟩
    have hld : cur.data.getLastD ' ' = y := by
      rw [List.getLastD_eq_getLast?, hy]
      rfl
    have hlen : cur.length > 0 := by
      show 0 < cur.data.length
      exact List.length_pos.mpr hd
    have hdec : cur.data.dropLast ++ [y] = cur.data := by
      have h1 := List.dropLast_append_getLast hd
      rw [List.getLast?_eq_getLast_of_ne_nil hd] at hy
      injection hy with hy'
      rw [hy'] at h1
      exact h1
    by_cases hterm : y = '\n' ∨ y = '\r'
    · have hcond : ¬(cur.length > 0 ∧ cur.data.getLastD ' ' ≠ '\n' ∧
          cur.data.getLastD ' ' ≠ '\r') := by
        rw [hld]
        rcases hterm with rfl | rfl <;> simp
      have happ : updateAppendString cur i = decRepr i ++ "\n" := by
        unfold updateAppendString
        rw [hb]
        simp only [Bool.false_eq_true, if_false]
        rw [if_neg hcond]
      have hyterm : isTermCh y = true := by
        rcases hterm with rfl | rfl <;> rfl
      constructor
      · rw [happ, if_neg hcur, if_pos (by rw [hy]; rcases hterm with rfl | rfl <;> simp)]
      · rw [happ, parseIds_eq_scan]
        have hdata : (cur ++ (decRepr i ++ "\n")).data =
            cur.data ++ ((decRepr i).data ++ ['\n']) := rfl
        rw [hdata, ← hdec, scan_append_of_term _ y _ [] hyterm]
        have h2 : scanIds ((decRepr i).data ++ ['\n']) [] = [i] := by
          rw [show (decRepr i).data ++ ['\n'] = (decRepr i).data ++ '\n' :: [] from rfl,
            scan_decRepr_newline]
          rfl
        rw [h2, hdec, ← parseIds_eq_scan]
    · have hyn : y ≠ '\n' := fun h => hterm (Or.inl h)
      have hyr : y ≠ '\r' := fun h => hterm (Or.inr h)
      have hcond : cur.length > 0 ∧ cur.data.getLastD ' ' ≠ '\n' ∧
          cur.data.getLastD ' ' ≠ '\r' := by
        rw [hld]
        exact ⟨hlen, hyn, hyr⟩
      have happ : updateAppendString cur i = "\n" ++ decRepr i ++ "\n" := by
        unfold updateAppendString
        rw [hb]
        simp only [Bool.false_eq_true, if_false]
        rw [if_pos hcond]
      constructor
      · rw [happ, if_neg hcur, if_neg (by rw [hy]; simp [hyn, hyr])]
      · rw [happ, parseIds_eq_scan]
        have hdata : (cur ++ ("\n" ++ decRepr i ++ "\n")).data =
            cur.data ++ '\n' :: ((decRepr i).data ++ ['\n']) := rfl
        rw [hdata]
        have hshape : cur.data ++ '\n' :: ((decRepr i).data ++ ['\n']) =
            (cur.data ++ ['\n']) ++ ((decRepr i).data ++ ['\n']) := by
          rw [List.append_assoc]
          rfl
        rw [hshape, scan_append_of_term _ '\n' _ [] rfl]
        have h2 : scanIds ((decRepr i).data ++ ['\n']) [] = [i] := by
          rw [show (decRepr i).data ++ ['\n'] = (decRepr i).data ++ '\n' :: [] from rfl,
            scan_decRepr_newline]
          rfl
        rw [h2, scan_trailing_term cur.data [] '\n' rfl, ← parseIds_eq_scan]

/-- C1: for an entity with a present primary key and non-empty
serialization, Save followed by FindById on that key returns the entity
obtained by deserializing the serialized input. -/
theorem claim_c1_save_findById_roundtrip {α : Type} (E : EntityOps α) (entity : α)
    (s : Store) (i : Int) (hpk : E.getPrimaryKey entity = some i)
    (hser : E.serialize entity ≠ "") :
    FindById E i (Save E entity s).2.1 = some (E.deserialize (E.serialize entity)) := by
  have key : fmRead (Save E entity s).2.1 (GetFilePath E i) = E.serialize entity := by
    unfold Save
    rw [hpk]
    dsimp only
    split
    · rw [fmRead_fmPut, if_pos rfl]
    · unfold fmAppend
      rw [fmRead_fmPut, if_neg (filePath_ne_idsPath E i), fmRead_fmPut, if_pos rfl]
  have hb : (E.serialize entity).isEmpty = false := by
    rcases h : (E.serialize entity).isEmpty
    · rfl
    · exact absurd ((String.isEmpty_iff _).mp h) hser
  unfold FindById
  dsimp only
  rw [key, hb]
  simp only [Bool.false_eq_true, if_false]

/-- C1 witness: a concrete entity with key 1 and payload `"Alice"`. -/
theorem claim_c1_witness :
    demoOps.getPrimaryKey (some 1, "Alice") = some 1 ∧
      demoOps.serialize (some 1, "Alice") ≠ "" ∧
      FindById demoOps 1 (Save demoOps (some 1, "Alice") emptyStore).2.1 =
        some (demoOps.deserialize (demoOps.serialize (some 1, "Alice"))) :=
  ⟨rfl, by decide,
    claim_c1_save_findById_roundtrip demoOps (some 1, "Alice") emptyStore 1 rfl (by decide)⟩

/-- C2: from the empty store, Save(E1), Save(E2), DeleteById(E1's id)
leaves a state where FindAll returns exactly the entity deserialized from
E2's blob, E1's blob is deleted, and the index lists exactly E2's id. -/
theorem claim_c2_index_consistency {α : Type} (E : EntityOps α) (e1 e2 : α)
    (i1 i2 : Int) (h1 : E.getPrimaryKey e1 = some i1) (h2 : E.getPrimaryKey e2 = some i2)
    (hne : i1 ≠ i2) (hser2 : E.serialize e2 ≠ "") :
    FindAll E (DeleteById E i1 (Save E e2 (Save E e1 emptyStore).2.1).2.1).1 =
        [E.deserialize (E.serialize e2)] ∧
      fmRead (DeleteById E i1 (Save E e2 (Save E e1 emptyStore).2.1).2.1).1
          (GetFilePath E i1) = "" ∧
      ReadAllIds E (DeleteById E i1 (Save E e2 (Save E e1 emptyStore).2.1).2.1).1 = [i2] := by
  have hfp1_ne_ip := filePath_ne_idsPath E i1
  have hfp2_ne_ip := filePath_ne_idsPath E i2
  have hfp_ne : GetFilePath E i2 ≠ GetFilePath E i1 := fun h => hne (filePath_inj E h).symm
  have hex1 : IdExistsInFile E i1
      (fmPut emptyStore (GetFilePath E i1) (E.serialize e1)) = false := by
    unfold IdExistsInFile ReadAllIds
    rw [fmRead_fmPut, if_neg (Ne.symm hfp1_ne_ip)]
    rfl
  have hs1 : (Save E e1 emptyStore).2.1 =
      fmPut (fmPut emptyStore (GetFilePath E i1) (E.serialize e1)) (GetIdsFilePath E)
        (decRepr i1 ++ "\n") := by
    unfold Save
    rw [h1]
    dsimp only
    rw [hex1]
    simp only [Bool.false_eq_true, if_false]
    unfold fmAppend
    rw [fmRead_fmPut, if_neg (Ne.symm hfp1_ne_ip), fmRead_emptyStore, str_empty_append]
  have hread1 : fmRead (fmPut (fmPut emptyStore (GetFilePath E i1) (E.serialize e1))
      (GetIdsFilePath E) (decRepr i1 ++ "\n")) (GetIdsFilePath E) = decRepr i1 ++ "\n" := by
    rw [fmRead_fmPut, if_pos rfl]
  have hex2 : IdExistsInFile E i2
      (fmPut (fmPut (fmPut emptyStore (GetFilePath E i1) (E.serialize e1))
        (GetIdsFilePath E) (decRepr i1 ++ "\n")) (GetFilePath E i2) (E.serialize e2)) =
      false := by
    unfold IdExistsInFile ReadAllIds
    rw [fmRead_fmPut, if_neg (Ne.symm hfp2_ne_ip), hread1, parse_single]
    simp [hne]
  have hs2 : (Save E e2 (Save E e1 emptyStore).2.1).2.1 =
      fmPut (fmPut (fmPut (fmPut emptyStore (GetFilePath E i1) (E.serialize e1))
          (GetIdsFilePath E) (decRepr i1 ++ "\n")) (GetFilePath E i2) (E.serialize e2))
        (GetIdsFilePath E) ((decRepr i1 ++ "\n") ++ (decRepr i2 ++ "\n")) := by
    rw [hs1]
    unfold Save
    rw [h2]
    dsimp only
    rw [hex2]
    simp only [Bool.false_eq_true, if_false]
    unfold fmAppend
    rw [fmRead_fmPut, if_neg (Ne.symm hfp2_ne_ip), hread1]
  have hcontent : (decRepr i1 ++ "\n") ++ (decRepr i2 ++ "\n") = formatIds [i1, i2] := by
    rw [formatIds_cons, formatIds_cons]
    rw [show formatIds ([] : List Int) = "" from rfl]
    apply String.ext
    have hnil : ("" : String).data = [] := rfl
    simp [data_append, hnil, List.append_assoc]
  have hparse12 : parseIds ((decRepr i1 ++ "\n") ++ (decRepr i2 ++ "\n")) = [i1, i2] := by
    rw [hcontent, parseIds_formatIds]
  have hreadS2 : fmRead (fmPut (fmPut (fmPut (fmPut emptyStore (GetFilePath E i1)
        (E.serialize e1)) (GetIdsFilePath E) (decRepr i1 ++ "\n")) (GetFilePath E i2)
        (E.serialize e2)) (GetIdsFilePath E)
        ((decRepr i1 ++ "\n") ++ (decRepr i2 ++ "\n"))) (GetIdsFilePath E) =
      (decRepr i1 ++ "\n") ++ (decRepr i2 ++ "\n") := by
    rw [fmRead_fmPut, if_pos rfl]
  have hfilter : [i1, i2].filter (fun x => x != i1) = [i2] := by
    simp [bne_iff_ne, hne, Ne.symm hne]
  have hdel : (DeleteById E i1 (fmPut (fmPut (fmPut (fmPut emptyStore (GetFilePath E i1)
        (E.serialize e1)) (GetIdsFilePath E) (decRepr i1 ++ "\n")) (GetFilePath E i2)
        (E.serialize e2)) (GetIdsFilePath E)
        ((decRepr i1 ++ "\n") ++ (decRepr i2 ++ "\n")))).1 =
      fmPut (fmDelete (fmPut (fmPut (fmPut (fmPut emptyStore (GetFilePath E i1)
          (E.serialize e1)) (GetIdsFilePath E) (decRepr i1 ++ "\n")) (GetFilePath E i2)
          (E.serialize e2)) (GetIdsFilePath E)
          ((decRepr i1 ++ "\n") ++ (decRepr i2 ++ "\n"))) (GetFilePath E i1))
        (GetIdsFilePath E) (formatIds [i2]) := by
    unfold DeleteById WriteAllIds ReadAllIds
    dsimp only
    rw [fmRead_fmDelete, if_neg (Ne.symm hfp1_ne_ip), hreadS2, hparse12, hfilter]
  have hreadAll : ReadAllIds E (DeleteById E i1
      (Save E e2 (Save E e1 emptyStore).2.1).2.1).1 = [i2] := by
    rw [hs2, hdel]
    unfold ReadAllIds
    rw [fmRead_fmPut, if_pos rfl, parseIds_formatIds]
  have hreadfp2 : fmRead (DeleteById E i1
      (Save E e2 (Save E e1 emptyStore).2.1).2.1).1 (GetFilePath E i2) =
      E.serialize e2 := by
    rw [hs2, hdel]
    rw [fmRead_fmPut, if_neg hfp2_ne_ip, fmRead_fmDelete, if_neg hfp_ne,
      fmRead_fmPut, if_neg hfp2_ne_ip, fmRead_fmPut, if_pos rfl]
  have hb2 : (E.serialize e2).isEmpty = false := by
    rcases h : (E.serialize e2).isEmpty
    · rfl
    · exact absurd ((String.isEmpty_iff _).mp h) hser2
  refine ⟨?_, ?_, hreadAll⟩
  · unfold FindAll
    rw [hreadAll, List.foldl_cons, List.foldl_nil]
    dsimp only
    rw [hreadfp2, hb2]
    simp only [Bool.false_eq_true, if_false, List.nil_append]
  · rw [hs2, hdel]
    rw [fmRead_fmPut, if_neg hfp1_ne_ip, fmRead_fmDelete, if_pos rfl]

/-- C2 witness: entities (1, "Alice") and (2, "Bob") over the demo entity
type. -/
theorem claim_c2_witness :
    demoOps.getPrimaryKey (some 1, "Alice") = some 1 ∧
      demoOps.getPrimaryKey (some 2, "Bob") = some 2 ∧
      (1 : Int) ≠ 2 ∧
      demoOps.serialize (some 2, "Bob") ≠ "" ∧
      FindAll demoOps (DeleteById demoOps 1 (Save demoOps (some 2, "Bob")
          (Save demoOps (some 1, "Alice") emptyStore).2.1).2.1).1 =
        [demoOps.deserialize (demoOps.serialize (some 2, "Bob"))] :=
  ⟨rfl, rfl, by decide, by decide,
    (claim_c2_index_consistency demoOps (some 1, "Alice") (some 2, "Bob") 1 2 rfl rfl
      (by decide) (by decide)).1⟩

end Cpa
